import Mathlib

/-!
Verification of the InferOps browser frontend (frontend/js of the InferOps
repository) against its natural-language specification.

The JavaScript modules are shallowly embedded: strings are modelled as
`List Char` (JavaScript strings are sequences of code units; all characters
relevant here are plain), JSON values as the inductive `Json`, the DOM and
network effects as explicit state (lists of rendered entries, request
records, and so on).  Fallible JavaScript expressions (property access on
`null`/`undefined`, `JSON.parse` failures) are modelled with `Except`, the
error being the uncaught-exception path of the enclosing `try` block.
`JSON.parse` itself is a browser builtin, so it is taken as an abstract
parameter `parse : List Char -> Option Json` (`none` models a parse
exception); the theorems hold for every parser.
-/

namespace InferOps

/-- Newline character, the line separator used by the streaming chat loop. -/
def nl : Char := '\n'

/-- Model of a JavaScript JSON value as produced by a successful
`JSON.parse` (`undefined` is represented by `Option.none` at use sites). -/
inductive Json where
  | null
  | bool (b : Bool)
  | num (n : Int)
  | str (s : String)
  | arr (elems : List Json)
  | obj (fields : List (String × Json))

/-- Field lookup in a parsed JSON object (first binding wins; objects
produced by JSON.parse have unique keys). -/
def jlookup : List (String × Json) → String → Option Json
  | [], _ => none
  | (k, v) :: fs, key => if k = key then some v else jlookup fs key

/-- JavaScript truthiness of a JSON value (an absent/`undefined` value is
falsy and is represented by `none` at use sites). -/
def truthy : Json → Bool
  | .null => false
  | .bool b => b
  | .num n => n != 0
  | .str s => !s.isEmpty
  | .arr _ => true
  | .obj _ => true

/-- JavaScript property access `v[k]` for a named key `k`.  Reading a
property of `null` throws (`Except.error`); reading an absent property of
an object, or any of the properties used by this frontend on a primitive
value, yields `undefined` (`none`).  The `length` builtin of arrays and
strings is kept for faithfulness although the embedded code never reads it. -/
def jsGetField : Json → String → Except Unit (Option Json)
  | .null, _ => .error ()
  | .obj fs, k => .ok (jlookup fs k)
  | .arr xs, k => .ok (if k = "length" then some (.num (Int.ofNat xs.length)) else none)
  | .str s, k => .ok (if k = "length" then some (.num (Int.ofNat s.length)) else none)
  | .bool _, _ => .ok none
  | .num _, _ => .ok none

/-- JavaScript index access `v[0]`: element 0 of an array, property "0" of
an object, the first character of a string, `undefined` on other primitives,
and a throw on `null`. -/
def jsIndex0 : Json → Except Unit (Option Json)
  | .null => .error ()
  | .arr xs => .ok xs.head?
  | .obj fs => .ok (jlookup fs "0")
  | .str s => .ok (if s.isEmpty then none else some (.str (String.singleton (s.get 0))))
  | .bool _ => .ok none
  | .num _ => .ok none

/-- JavaScript string coercion `String(v)` of a parsed JSON value, used by
the `+=` concatenation in the chat loop.  Arrays coerce to their elements
joined by commas with `null` elements rendered empty; objects coerce to
"[object Object]". -/
def jsToChars : Json → List Char
  | .null => "null".toList
  | .bool true => "true".toList
  | .bool false => "false".toList
  | .num n => (toString n).toList
  | .str s => s.toList
  | .obj _ => "[object Object]".toList
  | .arr [] => []
  | .arr [Json.null] => []
  | .arr [x] => jsToChars x
  | .arr (Json.null :: y :: xs) => ',' :: jsToChars (.arr (y :: xs))
  | .arr (x :: y :: xs) => jsToChars x ++ ',' :: jsToChars (.arr (y :: xs))

/-- Evaluation of `[0-element].delta.content` starting from the value of
`choices[0]` (`none` is `undefined`, on which the further access throws). -/
def evalFromIndex0 (e0o : Option Json) : Except Unit (Option Json) :=
  match e0o with
  | none => .error ()
  | some e0 =>
    match jsGetField e0 "delta" with
    | .error e => .error e
    | .ok none => .error ()
    | .ok (some d) => jsGetField d "content"

/-- Evaluation of the chain `parsed.choices && parsed.choices[0].delta.content`
from chat.js line 96, with JavaScript exception semantics: the result is the
value of the conjunction's right operand when the left operand is truthy
(`none` when the guard is falsy or a step yields `undefined` without being
accessed further), and `Except.error` when a property access throws. -/
def evalDeltaContent (parsed : Json) : Except Unit (Option Json) :=
  match jsGetField parsed "choices" with
  | .error e => .error e
  | .ok none => .ok none
  | .ok (some c) =>
    if truthy c then
      match jsIndex0 c with
      | .error e => .error e
      | .ok e0o => evalFromIndex0 e0o
    else .ok none

/-- The appended text determined by the evaluation outcome of the guard
chain: nothing on a (caught) throw or a falsy value, the coerced content
otherwise. -/
def fragPost (r : Except Unit (Option Json)) : Option (List Char) :=
  match r with
  | .error _ => none
  | .ok none => none
  | .ok (some cj) => if truthy cj then some (jsToChars cj) else none

/-- The text appended to the assistant message by one parsed `data:` frame
(chat.js lines 95-101): the coerced content fragment when the guard
`parsed.choices && parsed.choices[0].delta.content` evaluates truthily, and
nothing when the guard is falsy or the evaluation throws (the exception is
swallowed by the inner `try`/`catch`). -/
def dataLineFrag (parsed : Json) : Option (List Char) :=
  fragPost (evalDeltaContent parsed)

/-- Effect of a `data:` line payload on the assistant content: `JSON.parse`
failure is caught and ignored; otherwise the frame's fragment, if any. -/
def fragOfPayload (parse : List Char → Option Json) (payload : List Char) :
    Option (List Char) :=
  match parse payload with
  | none => none
  | some parsed => dataLineFrag parsed

/-- Boolean test that a string (modelled as a character list) starts with a
given character sequence; model of JavaScript `String.prototype.startsWith`. -/
def strStarts : List Char → List Char → Bool
  | _, [] => true
  | [], _ :: _ => false
  | c :: cs, p :: ps => c == p && strStarts cs ps

/-- The six characters of the SSE data-frame marker. -/
def dataMark : List Char := "data: ".toList

/-- The line prefix of the custom SSE event frame. -/
def eventMark : List Char := "event: node_assigned".toList

/-- Model of JavaScript `String.prototype.split('\n')`: fields between
newline separators, with a (possibly empty) trailing field; never empty. -/
def splitNl : List Char → List (List Char)
  | [] => [[]]
  | c :: cs =>
    if c = nl then [] :: splitNl cs
    else
      match splitNl cs with
      | [] => [[c]]
      | l :: ls => (c :: l) :: ls

/-- Model of JavaScript `Array.prototype.indexOf` restricted to present
elements: index of the first occurrence. -/
def idxOfLine : List (List Char) → List Char → Nat
  | [], _ => 0
  | l :: ls, x => if l = x then 0 else idxOfLine ls x + 1

/-- Model of `Array.prototype.pop`'s return value: the last element. -/
def lastD (l : List (List Char)) (d : List Char) : List Char :=
  match l with
  | [] => d
  | [x] => x
  | _ :: x :: xs => lastD (x :: xs) d

/-- State of the streaming read loop of sendMessage (chat.js lines 71-116):
the carry buffer holding the trailing incomplete line, the accumulated
assistant message content, and the arguments of the displayNodeAssignment
calls made so far (in order; `none` is the JavaScript `undefined`). -/
structure StreamState where
  buffer : List Char
  content : List Char
  nodeCalls : List (Option Json)

/-- Processing of one completed line by the loop body (chat.js lines 91-115).
`ctx` is the `lines` array of the current iteration, needed by the
`node_assigned` branch, which reads `lines[lines.indexOf(line) + 1]`.
An `Except.error` is a JavaScript exception that the loop does not catch
(the `JSON.parse` of the event payload and the `.node_name` access are
outside any inner `try`), carrying the state at the throw point. -/
def processLine (parse : List Char → Option Json) (ctx : List (List Char))
    (line : List Char) (st : StreamState) : Except StreamState StreamState :=
  if strStarts line dataMark then
    match fragOfPayload parse (line.drop 6) with
    | none => .ok st
    | some f => .ok { st with content := st.content ++ f }
  else if strStarts line eventMark then
    match ctx.get? (idxOfLine ctx line + 1) with
    | none => .ok st
    | some next =>
      if !next.isEmpty && strStarts next dataMark then
        match parse (next.drop 6) with
        | none => .error st
        | some parsed =>
          match jsGetField parsed "node_name" with
          | .error _ => .error st
          | .ok v => .ok { st with nodeCalls := st.nodeCalls ++ [v] }
      else .ok st
  else .ok st

/-- Left-to-right processing of the completed lines of one read iteration,
stopping at the first uncaught exception. -/
def processLines (parse : List Char → Option Json) (ctx : List (List Char)) :
    List (List Char) → StreamState → Except StreamState StreamState
  | [], st => .ok st
  | l :: ls, st =>
    match processLine parse ctx l st with
    | .error e => .error e
    | .ok st' => processLines parse ctx ls st'

/-- One iteration of the read loop on a decoded chunk (chat.js lines 83-116):
append the chunk to the carry buffer, split on newlines, pop the trailing
incomplete line back into the buffer, and process the completed lines. -/
def feedChunk (parse : List Char → Option Json) (st : StreamState)
    (chunk : List Char) : Except StreamState StreamState :=
  let parts := splitNl (st.buffer ++ chunk)
  processLines parse parts.dropLast parts.dropLast
    { st with buffer := lastD parts [] }

/-- The whole read loop over the sequence of chunks delivered by the
response body reader. -/
def runChunks (parse : List Char → Option Json) :
    List (List Char) → StreamState → Except StreamState StreamState
  | [], st => .ok st
  | c :: cs, st =>
    match feedChunk parse st c with
    | .error e => .error e
    | .ok st' => runChunks parse cs st'

/-- The streaming phase of sendMessage started on an empty buffer, empty
assistant content and no node-assignment notifications. -/
def runStream (parse : List Char → Option Json) (chunks : List (List Char)) :
    Except StreamState StreamState :=
  runChunks parse chunks ⟨[], [], []⟩

/-- Concatenation of the delivered chunks, i.e. the byte stream of the
response body. -/
def chunksJoin : List (List Char) → List Char
  | [] => []
  | c :: cs => c ++ chunksJoin cs

/-- Rendering of a sequence of lines as a newline-terminated stream. -/
def linesJoin : List (List Char) → List Char
  | [] => []
  | l :: ls => l ++ nl :: linesJoin ls

/-- The fragment contributed by one completed line: the payload fragment for
a `data:` line, nothing otherwise. -/
def lineFrag (parse : List Char → Option Json) (l : List Char) : List Char :=
  if strStarts l dataMark then (fragOfPayload parse (l.drop 6)).getD [] else []

/-- Concatenated fragments of a sequence of completed lines. -/
def fragsJoin (parse : List Char → Option Json) : List (List Char) → List Char
  | [] => []
  | l :: ls => lineFrag parse l ++ fragsJoin parse ls

/-! ### Specification-side reading of a streamed frame

The spec describes a frame as a JSON chunk "with a `choices[0].delta.content`
text fragment".  The following definitions follow those words: a plain
lookup of that path, with a fragment counted exactly when it is present and
a non-empty string.  They are compared with the source-derived
`fragOfPayload` above. -/

/-- Plain field lookup (spec side): the field of an object, absent otherwise. -/
def optField (j : Json) (k : String) : Option Json :=
  match j with
  | .obj fs => jlookup fs k
  | _ => none

/-- Plain index-0 lookup (spec side), mirroring the value cases of `jsIndex0`. -/
def optIndex0 (j : Json) : Option Json :=
  match j with
  | .arr xs => xs.head?
  | .obj fs => jlookup fs "0"
  | .str s => if s.isEmpty then none else some (.str (String.singleton (s.get 0)))
  | _ => none

/-- Plain lookup of `.delta.content` from the value at `choices[0]` (spec side). -/
def chainFromIndex0 (e0o : Option Json) : Option Json :=
  match e0o with
  | none => none
  | some e0 =>
    match optField e0 "delta" with
    | none => none
    | some d => optField d "content"

/-- The value at path `choices[0].delta.content` of a parsed frame, when
every step is present. -/
def chainContentOf (j : Json) : Option Json :=
  match optField j "choices" with
  | none => none
  | some c => chainFromIndex0 (optIndex0 c)

/-- Specification-side fragment of one parsed frame: its
`choices[0].delta.content` string when present and non-empty. -/
def claimFragJson (j : Json) : Option (List Char) :=
  match chainContentOf j with
  | some (.str s) => if s.isEmpty then none else some s.toList
  | _ => none

/-- Specification-side fragment of a frame payload: the
`choices[0].delta.content` string when it is present and non-empty. -/
def claimFrag (parse : List Char → Option Json) (p : List Char) :
    Option (List Char) :=
  match parse p with
  | none => none
  | some j => claimFragJson j

/-- An optional value that is either absent or a string. -/
def typedOpt : Option Json → Bool
  | none => true
  | some (.str _) => true
  | some _ => false

/-- A frame is text-typed when its `choices[0].delta.content` value, if
present, is a string — the shape the spec prescribes for chat frames. -/
def jsonTyped (j : Json) : Bool := typedOpt (chainContentOf j)

/-- A payload is text-typed when it fails to parse or parses to a
text-typed frame. -/
def payloadTyped (parse : List Char → Option Json) (p : List Char) : Bool :=
  match parse p with
  | none => true
  | some j => jsonTyped j

/-- Concatenation, in payload order, of the fragments that are present and
non-empty in the parsed frames — the content the spec says a client
accumulates. -/
def specContent (parse : List Char → Option Json) (ps : List (List Char)) :
    List Char :=
  match ps with
  | [] => []
  | p :: ps' =>
    match claimFrag parse p with
    | none => specContent parse ps'
    | some f => f ++ specContent parse ps'

/-! ### The chat module around the loop (chat.js) -/

/-- A conversation message, as stored in `conversationHistory`. -/
structure Msg where
  role : String
  content : List Char

/-- HTTP method of a frontend request. -/
inductive Method where
  | get
  | post
deriving DecidableEq

/-- Body shape of a frontend request: none, a JSON object with the given
top-level fields, or multipart form data with the given field names. -/
inductive BodyKind where
  | noBody
  | jsonFields (fields : List String)
  | multipartFields (fields : List String)
deriving DecidableEq

/-- A request issued by the frontend. -/
structure Request where
  method : Method
  path : String
  body : BodyKind
deriving DecidableEq

/-- Base path of the gateway API (api.js line 9). -/
def API_BASE_URL : String := "/api/v1"

/-- The POST issued by sendMessage (chat.js lines 57-65): JSON body built
by JSON.stringify of an object with fields messages, model, stream. -/
def chatCompletionsReq : Request :=
  ⟨.post, "/api/v1/chat/completions", .jsonFields ["messages", "model", "stream"]⟩

/-- The extra GET opened by the `new EventSource('/api/v1/chat/completions')`
expression (chat.js line 76). -/
def chatEventSourceReq : Request :=
  ⟨.get, "/api/v1/chat/completions", .noBody⟩

/-- The EventSource object created by sendMessage: its URL, whether
`close()` was ever called on it, and whether any event listener was
attached.  The source does neither. -/
structure EventSourceConn where
  url : String
  closedFlag : Bool
  hasListeners : Bool
deriving DecidableEq

/-- Model of `String.prototype.trim`. -/
def jsTrim (s : List Char) : List Char :=
  ((s.dropWhile Char.isWhitespace).reverse.dropWhile Char.isWhitespace).reverse

/-- Network outcome of the sendMessage fetch: rejected promise, a response
with a non-ok status, or an ok response whose body is delivered as chunks. -/
inductive NetOutcome where
  | fetchRejected
  | httpStatusNotOk
  | streamBody (chunks : List (List Char))

/-- Observable result of one sendMessage invocation. -/
structure SendResult where
  history : List Msg
  sendDisabled : Bool
  requests : List Request
  eventSources : List EventSourceConn
  nodeNotices : List (Option Json)

/-- Model of sendMessage (chat.js lines 38-131).  The trimmed input is
pushed as a user message; the placeholder assistant message starts empty and
accumulates streamed fragments; on a non-ok status or a rejected fetch the
outer catch renders an error paragraph without touching the accumulated
content; the finally block re-enables the send button and pushes the
assistant message.  The EventSource is created only after the ok check. -/
def sendMessage (parse : List Char → Option Json) (hist : List Msg)
    (disabled0 : Bool) (input : List Char) (outcome : NetOutcome) : SendResult :=
  let messageText := jsTrim input
  if messageText.isEmpty then ⟨hist, disabled0, [], [], []⟩
  else
    let hist1 := hist ++ [⟨"user", messageText⟩]
    match outcome with
    | .fetchRejected =>
      ⟨hist1 ++ [⟨"assistant", []⟩], false, [chatCompletionsReq], [], []⟩
    | .httpStatusNotOk =>
      ⟨hist1 ++ [⟨"assistant", []⟩], false, [chatCompletionsReq], [], []⟩
    | .streamBody chunks =>
      let es : EventSourceConn := ⟨"/api/v1/chat/completions", false, false⟩
      match runStream parse chunks with
      | .ok s =>
        ⟨hist1 ++ [⟨"assistant", s.content⟩], false,
          [chatCompletionsReq, chatEventSourceReq], [es], s.nodeCalls⟩
      | .error s =>
        ⟨hist1 ++ [⟨"assistant", s.content⟩], false,
          [chatCompletionsReq, chatEventSourceReq], [es], s.nodeCalls⟩

/-- Strict user/assistant alternation of a conversation history: a sequence
of user-then-assistant pairs. -/
def IsAltHist : List Msg → Prop
  | [] => True
  | [_] => False
  | u :: a :: t => u.role = "user" ∧ a.role = "assistant" ∧ IsAltHist t

/-! ### The dataset module (dataset.js) -/

/-- One element of a job's `results` array. -/
structure JobResult where
  original : Json
  output : Json

/-- A job-status snapshot returned by the gateway. -/
structure JobStatus where
  status : String
  total_items : Nat
  processed_items : Nat
  results : List JobResult

/-- The entry appended to the results container for one result
(dataset.js lines 120-126); `stringify` abstracts the JSON.stringify
builtin. -/
def renderEntry (stringify : Json → List Char) (r : JobResult) : List Char :=
  "<p><span class=\"font-semibold text-gray-400\">输入:</span> ".toList
    ++ stringify r.original
    ++ "</p><p><span class=\"font-semibold text-green-400\">输出:</span> ".toList
    ++ stringify r.output ++ "</p>".toList

/-- Model of renderJobResults (dataset.js lines 113-130): read the number of
already rendered children and append one entry per result from that index on. -/
def renderJobResults (stringify : Json → List Char) (results : List JobResult)
    (container : List (List Char)) : List (List Char) :=
  container ++ (results.drop container.length).map (renderEntry stringify)

/-- The polling period passed to setInterval in startJobMonitoring
(dataset.js line 74). -/
def jobPollIntervalMs : Nat := 2000

/-- Dataset-module state relevant to job monitoring: the pending interval
(its period, `none` when cleared) and the rendered results container. -/
structure PollState where
  intervalMs : Option Nat
  rendered : List (List Char)

/-- Model of startJobMonitoring (dataset.js lines 69-75): clear any previous
interval and install a fresh 2-second one. -/
def startJobMonitoring (st : PollState) : PollState :=
  { st with intervalMs := some jobPollIntervalMs }

/-- Outcome of one fetchJobStatus call: a snapshot, or a rejection
(non-ok status or network failure — fetchJobStatus throws on both). -/
inductive FetchOutcome where
  | ok (s : JobStatus)
  | err

/-- Model of updateJobStatus (dataset.js lines 80-106) for a set job id: on
a snapshot, render the results and clear the interval exactly when the
status is completed or failed; on a rejection the catch clears the interval. -/
def updateJobStatus (stringify : Json → List Char) (o : FetchOutcome)
    (st : PollState) : PollState :=
  match o with
  | .err => { st with intervalMs := none }
  | .ok s =>
    let st' := { st with rendered := renderJobResults stringify s.results st.rendered }
    if s.status = "completed" ∨ s.status = "failed" then
      { st' with intervalMs := none }
    else st'

/-- An observed outcome after which the code stops polling: a terminal
snapshot or a fetch failure. -/
def isTerminalOutcome : FetchOutcome → Bool
  | .err => true
  | .ok s => s.status == "completed" || s.status == "failed"

/-- The interval-driven polling loop: while the interval is pending, each
tick fetches the next outcome and runs updateJobStatus.  Returns the final
state and the number of status fetches performed. -/
def runPolls (stringify : Json → List Char) :
    List FetchOutcome → PollState → PollState × Nat
  | [], st => (st, 0)
  | o :: os, st =>
    if st.intervalMs.isSome then
      let r := runPolls stringify os (updateJobStatus stringify o st)
      (r.1, r.2 + 1)
    else (st, 0)

/-- The multipart form-data fields built by handleFormSubmit (dataset.js
lines 44-48): always `file`, plus `data_count` exactly when the input value
is a non-empty (truthy) string. -/
def handleFormSubmitFields (dataCountValue : String) : List String :=
  "file" :: (if dataCountValue = "" then [] else ["data_count"])

/-- The upload request issued through uploadDataset (api.js lines 67-73). -/
def uploadDatasetReq (dataCountValue : String) : Request :=
  ⟨.post, API_BASE_URL ++ "/dataset/upload", .multipartFields (handleFormSubmitFields dataCountValue)⟩

/-- The job-status request issued through fetchJobStatus (api.js line 81). -/
def fetchJobStatusReq (jobId : String) : Request :=
  ⟨.get, API_BASE_URL ++ "/dataset/status/" ++ jobId, .noBody⟩

/-! ### The dashboard fetch helpers (api.js) and main loop (main.js) -/

/-- Outcome of one `fetch` of a GET endpoint: a rejected promise, or a
response with its ok flag and the result of `response.json()` (error when
the body is not valid JSON). -/
inductive HttpOutcome where
  | netErr
  | resp (ok : Bool) (body : Except Unit Json)

/-- The claim's failure outcomes: a non-ok HTTP status or a rejected fetch. -/
def httpFailed : HttpOutcome → Bool
  | .netErr => true
  | .resp ok _ => !ok

/-- The body of the three guarded helpers before their catch: throw on a
rejected fetch, throw on a non-ok status, otherwise `response.json()`. -/
def rawGetJson (o : HttpOutcome) : Except Unit Json :=
  match o with
  | .netErr => .error ()
  | .resp false _ => .error ()
  | .resp true b => b

/-- The catch-all of the three guarded helpers: any failure resolves to
an empty array. -/
def catchToEmptyArr (r : Except Unit Json) : Except Unit Json :=
  match r with
  | .error _ => .ok (Json.arr [])
  | .ok j => .ok j

/-- Model of fetchNodeStatuses (api.js lines 15-26). -/
def fetchNodeStatuses (o : HttpOutcome) : Except Unit Json :=
  catchToEmptyArr (rawGetJson o)

/-- Model of fetchAlerts (api.js lines 32-43). -/
def fetchAlerts (o : HttpOutcome) : Except Unit Json :=
  catchToEmptyArr (rawGetJson o)

/-- Model of fetchAvailableModels (api.js lines 49-60). -/
def fetchAvailableModels (o : HttpOutcome) : Except Unit Json :=
  catchToEmptyArr (rawGetJson o)

/-- The data-gathering part of appTick (main.js lines 24-28): Promise.all
over the three helpers, rejecting iff one of them rejects. -/
def appTickFetch (o1 o2 o3 : HttpOutcome) : Except Unit (Json × Json × Json) :=
  match fetchNodeStatuses o1 with
  | .error e => .error e
  | .ok a =>
    match fetchAlerts o2 with
    | .error e => .error e
    | .ok b =>
      match fetchAvailableModels o3 with
      | .error e => .error e
      | .ok c => .ok (a, b, c)

/-- The node-status request issued by fetchNodeStatuses (api.js line 17). -/
def fetchNodeStatusesReq : Request := ⟨.get, API_BASE_URL ++ "/status/all", .noBody⟩

/-- The alerts request issued by fetchAlerts (api.js line 34). -/
def fetchAlertsReq : Request := ⟨.get, API_BASE_URL ++ "/alerts", .noBody⟩

/-- The models request issued by fetchAvailableModels (api.js line 51). -/
def fetchAvailableModelsReq : Request := ⟨.get, API_BASE_URL ++ "/models", .noBody⟩

/-- The complete set of request-issuing sites in the frontend sources
(api.js, chat.js via sendMessage, dataset.js), as a function of the dynamic
parts (the polled job id and the data-count input value). -/
def frontendRequests (jobId dataCountValue : String) : List Request :=
  [fetchNodeStatusesReq, fetchAlertsReq, fetchAvailableModelsReq,
   uploadDatasetReq dataCountValue, fetchJobStatusReq jobId,
   chatCompletionsReq, chatEventSourceReq]

/-- A path listed in the public API table under base path /api/v1. -/
def AllowedPath (p : String) : Prop :=
  p = "/api/v1/status/all" ∨ p = "/api/v1/alerts" ∨ p = "/api/v1/models" ∨
  p = "/api/v1/chat/completions" ∨ p = "/api/v1/dataset/upload" ∨
  ∃ jobId : String, p = "/api/v1/dataset/status/" ++ jobId

/-! ### The alerts renderer (ui.js) -/

/-- An alert object as consumed by updateAlerts (the optional node_id plays
no role in rendering). -/
structure AlertItem where
  level : String
  message : String

/-- The red (critical) container styling of an alert entry. -/
def redAlertClass : String :=
  "p-3 rounded-lg mb-2 flex items-center bg-red-900 border border-red-700"

/-- The yellow (warning) container styling of an alert entry. -/
def yellowAlertClass : String :=
  "p-3 rounded-lg mb-2 flex items-center bg-yellow-900 border border-yellow-700"

/-- The className updateAlerts assigns to one alert entry (ui.js line 180):
red styling exactly when the level equals the localized string '严重',
yellow styling otherwise. -/
def alertContainerClass (a : AlertItem) : String :=
  if a.level = "严重" then redAlertClass else yellowAlertClass

/-- The placeholder paragraph rendered when there are no alerts. -/
def noAlertsHtml : String := "<p class=\"text-gray-400\">当前无告警</p>"

/-- The inner HTML of one rendered alert entry (ui.js lines 181-184). -/
def alertEntryHtml (a : AlertItem) : String :=
  "<span class=\"font-bold mr-2\">[" ++ a.level ++ "]</span><span>"
    ++ a.message ++ "</span>"

/-- Model of updateAlerts (ui.js lines 170-187): clear the container, render
the placeholder when the list is empty, otherwise one styled entry per
alert, in order. -/
def updateAlerts (alerts : List AlertItem) : List (String × String) :=
  match alerts with
  | [] => [("", noAlertsHtml)]
  | _ => alerts.map (fun a => (alertContainerClass a, alertEntryHtml a))

/-! ## Lemmas about line splitting and buffering -/

theorem strStarts_append_self (p t : List Char) : strStarts (p ++ t) p = true := by
  induction p with
  | nil => cases t <;> rfl
  | cons c cs ih => simp [strStarts, ih]

theorem splitNl_ne_nil (s : List Char) : splitNl s ≠ [] := by
  cases s with
  | nil => simp [splitNl]
  | cons c cs =>
    simp only [splitNl]
    split
    · simp
    · split <;> simp_all

theorem splitNl_of_not_mem (s : List Char) (h : nl ∉ s) : splitNl s = [s] := by
  induction s with
  | nil => rfl
  | cons c cs ih =>
    simp only [List.mem_cons, not_or] at h
    simp only [splitNl, if_neg (Ne.symm h.1), ih h.2]

theorem splitNl_append_line (l t : List Char) (h : nl ∉ l) :
    splitNl (l ++ nl :: t) = l :: splitNl t := by
  induction l with
  | nil => simp [splitNl]
  | cons c cs ih =>
    simp only [List.mem_cons, not_or] at h
    have e : splitNl (List.append cs (nl :: t)) = cs :: splitNl t := ih h.2
    simp only [List.cons_append, splitNl, if_neg (Ne.symm h.1), e]

theorem lastD_concat (A : List (List Char)) (r d : List Char) :
    lastD (A ++ [r]) d = r := by
  induction A with
  | nil => rfl
  | cons a A ih =>
    cases A with
    | nil => rfl
    | cons b B => simpa [lastD] using ih

theorem nl_mem_linesJoin (l : List Char) (ls : List (List Char)) :
    nl ∈ linesJoin (l :: ls) := by
  simp [linesJoin]

/-- Decomposition of the split of a partially delivered line stream: if
`x ++ y` is the newline-terminated rendering of newline-free lines `ls`,
then splitting `x` yields some leading complete lines of `ls` followed by a
newline-free partial line that, together with `y`, renders the remaining
lines. -/
theorem splitNl_decomp (ls : List (List Char)) :
    ∀ x y : List Char, (∀ l ∈ ls, nl ∉ l) → x ++ y = linesJoin ls →
      ∃ k r, splitNl x = ls.take k ++ [r] ∧ nl ∉ r ∧
        r ++ y = linesJoin (ls.drop k) := by
  induction ls with
  | nil =>
    intro x y _ hxy
    simp only [linesJoin, List.append_eq_nil] at hxy
    refine ⟨0, [], ?_, by simp, ?_⟩ <;> simp [hxy.1, hxy.2, splitNl, linesJoin]
  | cons l ls ih =>
    intro x y hnf hxy
    have hl : nl ∉ l := hnf l (by simp)
    have hxy' : x ++ y = (l ++ [nl]) ++ linesJoin ls := by
      simpa [List.append_assoc] using hxy
    rcases List.append_eq_append_iff.mp hxy' with ⟨a, ha, hy⟩ | ⟨c, hx, hrest⟩
    · -- x is a prefix of the first rendered line l ++ [nl]
      cases a with
      | nil =>
        -- x is exactly l ++ [nl]
        simp only [List.append_nil] at ha
        refine ⟨1, [], ?_, by simp, ?_⟩
        · rw [← ha, show l ++ [nl] = l ++ nl :: ([] : List Char) from by simp,
            splitNl_append_line _ _ hl]
          simp [splitNl]
        · rw [hy]
          simp
      | cons a0 a' =>
        -- x is a proper prefix of l ++ [nl], hence a prefix of l
        have hxlen : x.length ≤ l.length := by
          have := congrArg List.length ha
          simp [List.length_append] at this
          omega
        have hxl : x = l.take x.length := by
          have := congrArg (List.take x.length) ha
          rw [List.take_append_of_le_length hxlen] at this
          simpa [List.take_left] using this.symm
        have hnx : nl ∉ x := by
          intro hc
          exact hl (List.take_subset _ _ (hxl ▸ hc))
        refine ⟨0, x, ?_, hnx, ?_⟩
        · simp [splitNl_of_not_mem x hnx]
        · simpa [linesJoin] using hxy
    · -- x extends past the first rendered line
      have hx' : x = l ++ nl :: c := by simpa using hx
      have hc' : c ++ y = linesJoin ls := hrest.symm
      rcases ih c y (fun m hm => hnf m (by simp [hm])) hc' with ⟨k, r, hsp, hnr, hr⟩
      refine ⟨k + 1, r, ?_, hnr, ?_⟩
      · rw [hx', splitNl_append_line _ _ hl, hsp]
        simp
      · simpa using hr

theorem fragsJoin_append (parse : List Char → Option Json)
    (a b : List (List Char)) :
    fragsJoin parse (a ++ b) = fragsJoin parse a ++ fragsJoin parse b := by
  induction a with
  | nil => simp [fragsJoin]
  | cons l a ih => simp [fragsJoin, ih]

/-- Processing a run of lines none of which carries the node_assigned event
marker never throws, never calls displayNodeAssignment, does not touch the
buffer, and appends exactly the data-frame fragments, independently of the
surrounding lines array. -/
theorem processLines_tame (parse : List Char → Option Json)
    (ctx : List (List Char)) :
    ∀ (rem : List (List Char)) (st : StreamState),
      (∀ l ∈ rem, strStarts l eventMark = false) →
      processLines parse ctx rem st =
        .ok ⟨st.buffer, st.content ++ fragsJoin parse rem, st.nodeCalls⟩ := by
  intro rem
  induction rem with
  | nil => intro st _; simp [processLines, fragsJoin]
  | cons l rem ih =>
    intro st h
    have hl : strStarts l eventMark = false := h l (by simp)
    have hrem : ∀ m ∈ rem, strStarts m eventMark = false :=
      fun m hm => h m (by simp [hm])
    by_cases hd : strStarts l dataMark = true
    · cases hf : fragOfPayload parse (l.drop 6) with
      | none =>
        have step : processLines parse ctx (l :: rem) st =
            processLines parse ctx rem st := by
          rw [processLines, processLine, if_pos hd, hf]
        rw [step, ih st hrem]
        simp [fragsJoin, lineFrag, hd, hf]
      | some f =>
        have step : processLines parse ctx (l :: rem) st =
            processLines parse ctx rem { st with content := st.content ++ f } := by
          rw [processLines, processLine, if_pos hd, hf]
        rw [step, ih _ hrem]
        simp [fragsJoin, lineFrag, hd, hf, List.append_assoc]
    · have step : processLines parse ctx (l :: rem) st =
          processLines parse ctx rem st := by
        rw [processLines, processLine, if_neg hd, if_neg (by simp [hl])]
      rw [step, ih st hrem]
      simp [fragsJoin, lineFrag, hd]

/-- Feeding any chunk sequence that delivers a newline-terminated stream of
event-free, newline-free lines — however the chunk boundaries fall —
completes with an empty carry buffer, the fragments of those lines appended
in order, and no node-assignment call. -/
theorem runChunks_tame (parse : List Char → Option Json) :
    ∀ (chunks ls : List (List Char)) (st : StreamState),
      nl ∉ st.buffer →
      (∀ l ∈ ls, nl ∉ l ∧ strStarts l eventMark = false) →
      st.buffer ++ chunksJoin chunks = linesJoin ls →
      runChunks parse chunks st =
        .ok ⟨[], st.content ++ fragsJoin parse ls, st.nodeCalls⟩ := by
  intro chunks
  induction chunks with
  | nil =>
    intro ls st hb hls hj
    rw [chunksJoin, List.append_nil] at hj
    cases ls with
    | nil =>
      obtain ⟨b, cnt, ncs⟩ := st
      simp only [linesJoin] at hj
      simp only at hj hb
      subst hj
      simp [runChunks, fragsJoin]
    | cons l ls' =>
      exact absurd (hj ▸ nl_mem_linesJoin l ls') hb
  | cons c cs ih =>
    intro ls st hb hls hj
    have hj' : (st.buffer ++ c) ++ chunksJoin cs = linesJoin ls := by
      rw [chunksJoin] at hj
      simpa [List.append_assoc] using hj
    obtain ⟨k, r, hsp, hnr, hr⟩ :=
      splitNl_decomp ls (st.buffer ++ c) (chunksJoin cs)
        (fun l hl => (hls l hl).1) hj'
    have htake : ∀ m ∈ ls.take k, strStarts m eventMark = false :=
      fun m hm => (hls m (List.take_subset k ls hm)).2
    have hdrop : ∀ m ∈ ls.drop k, nl ∉ m ∧ strStarts m eventMark = false :=
      fun m hm => hls m (List.drop_subset k ls hm)
    have hrun : runChunks parse (c :: cs) st =
        runChunks parse cs ⟨r, st.content ++ fragsJoin parse (ls.take k), st.nodeCalls⟩ := by
      rw [runChunks, feedChunk]
      simp only [hsp, List.dropLast_concat, lastD_concat]
      rw [processLines_tame parse (ls.take k) (ls.take k) _ htake]
    rw [hrun, ih (ls.drop k) _ hnr hdrop hr]
    simp [List.append_assoc, ← fragsJoin_append, List.take_append_drop]

/-! ## The code's frame reading refines the specification's frame reading -/

theorem jsIndex0_of_truthy (c : Json) (h : truthy c = true) :
    jsIndex0 c = .ok (optIndex0 c) := by
  cases c <;> first | rfl | simp [truthy] at h

theorem fragPost_evalFromIndex0 (e0o : Option Json)
    (h : typedOpt (chainFromIndex0 e0o) = true) :
    fragPost (evalFromIndex0 e0o) =
      (match chainFromIndex0 e0o with
        | some (.str s) => if s.isEmpty then none else some s.toList
        | _ => none) := by
  cases e0o with
  | none => rfl
  | some e0 =>
    cases e0 with
    | null => rfl
    | bool b => rfl
    | num n => rfl
    | str s => rfl
    | arr xs => rfl
    | obj gs =>
      cases hd : jlookup gs "delta" with
      | none => simp [evalFromIndex0, chainFromIndex0, jsGetField, optField, hd, fragPost]
      | some d =>
        cases d with
        | null => simp [evalFromIndex0, chainFromIndex0, jsGetField, optField, hd, fragPost]
        | bool b => simp [evalFromIndex0, chainFromIndex0, jsGetField, optField, hd, fragPost]
        | num n => simp [evalFromIndex0, chainFromIndex0, jsGetField, optField, hd, fragPost]
        | str s =>
          simp [evalFromIndex0, chainFromIndex0, jsGetField, optField, hd, fragPost,
            show ("content" : String) ≠ "length" from by decide]
        | arr xs =>
          simp [evalFromIndex0, chainFromIndex0, jsGetField, optField, hd, fragPost,
            show ("content" : String) ≠ "length" from by decide]
        | obj hs =>
          cases hcnt : jlookup hs "content" with
          | none =>
            simp [evalFromIndex0, chainFromIndex0, jsGetField, optField, hd, hcnt, fragPost]
          | some cj =>
            simp only [chainFromIndex0, optField, hd, hcnt] at h ⊢
            cases cj with
            | str s =>
              simp [evalFromIndex0, jsGetField, hd, hcnt, fragPost, truthy]
              by_cases he : s.isEmpty = true
              · simp [he]
              · simp [he, jsToChars]
            | null => simp [typedOpt] at h
            | bool b => simp [typedOpt] at h
            | num n => simp [typedOpt] at h
            | arr xs => simp [typedOpt] at h
            | obj ks => simp [typedOpt] at h

theorem dataLineFrag_eq_claimFragJson (j : Json) (h : jsonTyped j = true) :
    dataLineFrag j = claimFragJson j := by
  cases j with
  | null => rfl
  | bool b => rfl
  | num n => rfl
  | str s => rfl
  | arr xs => rfl
  | obj fs =>
    cases hc : jlookup fs "choices" with
    | none =>
      simp only [dataLineFrag, claimFragJson, chainContentOf, optField, hc,
        evalDeltaContent, jsGetField, fragPost]
    | some cv =>
      simp only [jsonTyped, chainContentOf, optField, hc] at h
      by_cases ht : truthy cv = true
      · simp only [dataLineFrag, claimFragJson, chainContentOf, optField, hc,
          evalDeltaContent, jsGetField, if_pos ht, jsIndex0_of_truthy cv ht]
        exact fragPost_evalFromIndex0 (optIndex0 cv) h
      · have hnone : optIndex0 cv = none := by
          cases cv <;> simp_all [truthy, optIndex0]
        simp only [dataLineFrag, claimFragJson, chainContentOf, optField, hc,
          evalDeltaContent, jsGetField, if_neg ht, hnone, chainFromIndex0, fragPost]

theorem fragOfPayload_eq_claimFrag (parse : List Char → Option Json)
    (p : List Char) (h : payloadTyped parse p = true) :
    fragOfPayload parse p = claimFrag parse p := by
  rw [fragOfPayload, claimFrag]
  rw [payloadTyped] at h
  cases hp : parse p with
  | none => rfl
  | some j =>
    rw [hp] at h
    exact dataLineFrag_eq_claimFragJson j h

/-! ## Data lines -/

theorem data_line_drop (p : List Char) : (dataMark ++ p).drop 6 = p := by
  have h : (6 : Nat) = dataMark.length := rfl
  rw [h, List.drop_left]

theorem data_line_starts (p : List Char) :
    strStarts (dataMark ++ p) dataMark = true := strStarts_append_self dataMark p

theorem data_line_not_event (p : List Char) :
    strStarts (dataMark ++ p) eventMark = false := by
  have h1 : dataMark ++ p = 'd' :: ("ata: ".toList ++ p) := rfl
  have h2 : eventMark = 'e' :: "vent: node_assigned".toList := rfl
  rw [h1, h2, strStarts]
  simp

theorem nl_not_mem_dataMark : nl ∉ dataMark := by decide

theorem fragsJoin_dataLines (parse : List Char → Option Json)
    (ps : List (List Char)) (hty : ∀ p ∈ ps, payloadTyped parse p = true) :
    fragsJoin parse (ps.map (fun p => dataMark ++ p)) = specContent parse ps := by
  induction ps with
  | nil => rfl
  | cons p ps ih =>
    have hp := hty p (by simp)
    have hps : ∀ q ∈ ps, payloadTyped parse q = true :=
      fun q hq => hty q (by simp [hq])
    rw [List.map_cons, fragsJoin, lineFrag, if_pos (data_line_starts p),
      data_line_drop, fragOfPayload_eq_claimFrag parse p hp, ih hps, specContent]
    cases claimFrag parse p <;> simp

/-! ## Behaviour of the node_assigned event branch -/

/-- Processing the event line when the very next array slot holds the full
payload line: one displayNodeAssignment call with the payload's node_name. -/
theorem processLine_event (parse : List Char → Option Json)
    (fs : List (String × Json)) (nv : Json) (P : List Char)
    (tail : List (List Char)) (st : StreamState)
    (hparse : parse P = some (Json.obj fs))
    (hname : jlookup fs "node_name" = some nv) :
    processLine parse (eventMark :: (dataMark ++ P) :: tail) eventMark st =
      .ok { st with nodeCalls := st.nodeCalls ++ [some nv] } := by
  rw [processLine, if_neg (by decide), if_pos (by decide)]
  have hidx : idxOfLine (eventMark :: (dataMark ++ P) :: tail) eventMark = 0 := by
    simp [idxOfLine]
  have hne : (dataMark ++ P).isEmpty = false := rfl
  simp [hidx, hne, data_line_starts, data_line_drop, hparse, jsGetField, hname]

/-- Processing the payload line itself through the data branch appends
nothing: the node_assigned payload has no choices field. -/
theorem processLine_payload (parse : List Char → Option Json)
    (fs : List (String × Json)) (ctx : List (List Char)) (P : List Char)
    (st : StreamState)
    (hparse : parse P = some (Json.obj fs))
    (hnoch : jlookup fs "choices" = none) :
    processLine parse ctx (dataMark ++ P) st = .ok st := by
  rw [processLine, if_pos (data_line_starts P), data_line_drop, fragOfPayload, hparse]
  have hfrag : dataLineFrag (Json.obj fs) = none := by
    simp [dataLineFrag, evalDeltaContent, jsGetField, hnoch, fragPost]
  simp [hfrag]

/-! ## Claim C2 -/

/-- Claim C2: for every streamed chat response delivered as chunks whose
concatenation is a newline-terminated sequence of data lines — however the
chunk boundaries split the lines — the loop completes without throwing and
the accumulated assistant content equals the in-order concatenation of
exactly those choices[0].delta.content fragments that are present and
non-empty in the parsed frames (text-typed frames, as the spec prescribes). -/
theorem sendMessage_stream_content_concat
    (parse : List Char → Option Json) (chunks ps : List (List Char))
    (hjoin : chunksJoin chunks = linesJoin (ps.map (fun p => dataMark ++ p)))
    (hnl : ∀ p ∈ ps, nl ∉ p)
    (hty : ∀ p ∈ ps, payloadTyped parse p = true) :
    runStream parse chunks = .ok ⟨[], specContent parse ps, []⟩ := by
  have hls : ∀ l ∈ ps.map (fun p => dataMark ++ p),
      nl ∉ l ∧ strStarts l eventMark = false := by
    intro l hl
    obtain ⟨p, hp, rfl⟩ := List.mem_map.mp hl
    refine ⟨fun hm => ?_, data_line_not_event p⟩
    rcases List.mem_append.mp hm with h1 | h2
    · exact nl_not_mem_dataMark h1
    · exact hnl p hp h2
  rw [runStream,
    runChunks_tame parse chunks (ps.map (fun p => dataMark ++ p)) ⟨[], [], []⟩
      (by simp) hls (by simpa using hjoin)]
  rw [show (⟨[], [], []⟩ : StreamState).content = [] from rfl, List.nil_append,
    fragsJoin_dataLines parse ps hty]

/-- A sample streamed frame payload carrying the fragment "Hi". -/
def c2payload : List Char :=
  "\x7b\"choices\":[\x7b\"delta\":\x7b\"content\":\"Hi\"\x7d\x7d]\x7d".toList

/-- The parsed value of that payload. -/
def c2frame : Json :=
  Json.obj [("choices",
    Json.arr [Json.obj [("delta", Json.obj [("content", Json.str "Hi")])]])]

/-- A concrete parser for the sample stream (the DONE sentinel fails to
parse, as for JSON.parse). -/
def c2parse : List Char → Option Json :=
  fun s => if s = c2payload then some c2frame else none

/-- The payloads of the sample stream. -/
def c2ps : List (List Char) := [c2payload, "[DONE]".toList]

/-- A chunking of the sample stream whose boundaries split both data lines
mid-marker. -/
def c2chunks : List (List Char) :=
  ["da".toList, "ta: ".toList ++ c2payload ++ "\nda".toList, "ta: [DONE]\n".toList]

/-- Witness for C2 at a concrete awkwardly chunked stream. -/
theorem sendMessage_stream_content_concat_witness :
    chunksJoin c2chunks = linesJoin (c2ps.map (fun p => dataMark ++ p)) ∧
    (∀ p ∈ c2ps, nl ∉ p) ∧ (∀ p ∈ c2ps, payloadTyped c2parse p = true) ∧
    runStream c2parse c2chunks = .ok ⟨[], "Hi".toList, []⟩ := by
  have h1 : chunksJoin c2chunks = linesJoin (c2ps.map (fun p => dataMark ++ p)) := by
    decide
  have h2 : ∀ p ∈ c2ps, nl ∉ p := by decide
  have h3 : ∀ p ∈ c2ps, payloadTyped c2parse p = true := by decide
  refine ⟨h1, h2, h3, ?_⟩
  rw [sendMessage_stream_content_concat c2parse c2chunks c2ps h1 h2 h3]
  rfl

/-! ## Claim C3 -/

/-- Claim C3: the terminating data [DONE] line neither throws nor changes
the accumulated assistant content: its JSON parse failure is caught and the
frame is ignored, both at line level (for any state and lines array) and at
chunk level (receiving the line on an empty carry buffer is a no-op). -/
theorem sendMessage_done_frame_ignored
    (parse : List Char → Option Json) (ctx : List (List Char)) (st : StreamState)
    (hp : parse ("[DONE]".toList) = none) :
    processLine parse ctx (dataMark ++ "[DONE]".toList) st = .ok st ∧
    ∀ cnt ncs, feedChunk parse ⟨[], cnt, ncs⟩ (dataMark ++ "[DONE]".toList ++ [nl]) =
      .ok ⟨[], cnt, ncs⟩ := by
  have hline : ∀ (ctx' : List (List Char)) (st' : StreamState),
      processLine parse ctx' (dataMark ++ "[DONE]".toList) st' = .ok st' := by
    intro ctx' st'
    rw [processLine, if_pos (data_line_starts _), data_line_drop, fragOfPayload, hp]
  refine ⟨hline ctx st, fun cnt ncs => ?_⟩
  have e1 : feedChunk parse ⟨[], cnt, ncs⟩ (dataMark ++ "[DONE]".toList ++ [nl]) =
      processLines parse [dataMark ++ "[DONE]".toList] [dataMark ++ "[DONE]".toList]
        ⟨[], cnt, ncs⟩ := by
    rw [feedChunk]
    have hsp : splitNl (([] : List Char) ++ (dataMark ++ "[DONE]".toList ++ [nl])) =
        [dataMark ++ "[DONE]".toList] ++ [[]] := by decide
    simp only [hsp, List.dropLast_concat, lastD_concat]
  rw [e1, processLines, hline _ _]
  rfl

/-- Witness for C3: ignoring a concrete DONE frame on concrete state. -/
theorem sendMessage_done_frame_ignored_witness :
    c2parse ("[DONE]".toList) = none ∧
    processLine c2parse [] (dataMark ++ "[DONE]".toList) ⟨[], "He".toList, []⟩ =
      .ok ⟨[], "He".toList, []⟩ ∧
    feedChunk c2parse ⟨[], "He".toList, []⟩ (dataMark ++ "[DONE]".toList ++ [nl]) =
      .ok ⟨[], "He".toList, []⟩ := by
  have hp : c2parse ("[DONE]".toList) = none := rfl
  have h := sendMessage_done_frame_ignored c2parse [] ⟨[], "He".toList, []⟩ hp
  exact ⟨hp, h.1, h.2 "He".toList []⟩

/-! ## Claim C1 -/

/-- The node_assigned payload of the counterexample stream. -/
def c1payload : List Char :=
  "\x7b\"node_id\":1,\"node_name\":\"Node 1\"\x7d".toList

/-- Its parsed value. -/
def c1frame : Json :=
  Json.obj [("node_id", Json.num 1), ("node_name", Json.str "Node 1")]

/-- A concrete parser for the node_assigned stream. -/
def c1parse : List Char → Option Json :=
  fun s => if s = c1payload then some c1frame else none

/-- A delivery of the well-formed node_assigned stream whose first read ends
between the event line and its payload line. -/
def c1chunks : List (List Char) :=
  ["event: node_assigned\nda".toList,
   "ta: ".toList ++ c1payload ++ "\n\ndata: [DONE]\n".toList]

/-- Counterexample to claim C1 as stated: this stream begins with the
event: node_assigned frame followed by its data payload line (whose JSON
carries node_name "Node 1" and no choices field), yet — because the chunk
boundary falls between the two lines — the loop completes with NO
displayNodeAssignment call at all (nodeCalls is empty), not exactly one. -/
theorem sendMessage_node_assigned_split_cex :
    chunksJoin c1chunks =
      eventMark ++ nl ::
        (dataMark ++ c1payload ++ nl :: nl :: (dataMark ++ "[DONE]".toList ++ [nl])) ∧
    c1parse c1payload = some c1frame ∧
    optField c1frame "node_name" = some (Json.str "Node 1") ∧
    optField c1frame "choices" = none ∧
    runStream c1parse c1chunks = .ok ⟨[], [], []⟩ := by
  refine ⟨by decide, rfl, rfl, rfl, rfl⟩

/-- Claim C1 (amended): provided the chunking delivers the complete event
line together with its complete payload line in one read (here: at the head
of the first chunk), the loop invokes displayNodeAssignment exactly once,
with the payload's node_name value, and the payload — carrying no choices
field — contributes nothing to the assistant content, which is exactly the
fragments of the remaining lines. -/
theorem sendMessage_node_assigned_same_chunk
    (parse : List Char → Option Json) (P t0 : List Char)
    (rest ls : List (List Char)) (fs : List (String × Json)) (nv : Json)
    (hP : nl ∉ P)
    (hparse : parse P = some (Json.obj fs))
    (hname : jlookup fs "node_name" = some nv)
    (hnoch : jlookup fs "choices" = none)
    (hrem : t0 ++ chunksJoin rest = linesJoin ls)
    (hls : ∀ l ∈ ls, nl ∉ l ∧ strStarts l eventMark = false) :
    runStream parse ((eventMark ++ nl :: (dataMark ++ P ++ nl :: t0)) :: rest) =
      .ok ⟨[], fragsJoin parse ls, [some nv]⟩ := by
  have hcd : nl ∉ dataMark ++ P := by
    intro hm
    rcases List.mem_append.mp hm with h1 | h2
    · exact nl_not_mem_dataMark h1
    · exact hP h2
  obtain ⟨k, r, hsp, hnr, hr⟩ :=
    splitNl_decomp ls t0 (chunksJoin rest) (fun l hl => (hls l hl).1) hrem
  have hsplit : splitNl (eventMark ++ nl :: (dataMark ++ P ++ nl :: t0)) =
      (eventMark :: (dataMark ++ P) :: ls.take k) ++ [r] := by
    rw [splitNl_append_line _ _ (by decide)]
    rw [show dataMark ++ P ++ nl :: t0 = (dataMark ++ P) ++ nl :: t0 from by
      simp [List.append_assoc]]
    rw [splitNl_append_line _ _ hcd, hsp]
    simp
  have htake : ∀ m ∈ ls.take k, strStarts m eventMark = false :=
    fun m hm => (hls m (List.take_subset k ls hm)).2
  have hdrop : ∀ m ∈ ls.drop k, nl ∉ m ∧ strStarts m eventMark = false :=
    fun m hm => hls m (List.drop_subset k ls hm)
  have hchain : processLines parse (eventMark :: (dataMark ++ P) :: ls.take k)
      (eventMark :: (dataMark ++ P) :: ls.take k) ⟨r, [], []⟩ =
      .ok ⟨r, fragsJoin parse (ls.take k), [some nv]⟩ := by
    have s1 : processLines parse (eventMark :: (dataMark ++ P) :: ls.take k)
        (eventMark :: (dataMark ++ P) :: ls.take k) ⟨r, [], []⟩ =
        processLines parse (eventMark :: (dataMark ++ P) :: ls.take k)
          ((dataMark ++ P) :: ls.take k) ⟨r, [], [] ++ [some nv]⟩ := by
      rw [processLines, processLine_event parse fs nv P (ls.take k) _ hparse hname]
    have s2 : processLines parse (eventMark :: (dataMark ++ P) :: ls.take k)
        ((dataMark ++ P) :: ls.take k) ⟨r, [], [] ++ [some nv]⟩ =
        processLines parse (eventMark :: (dataMark ++ P) :: ls.take k)
          (ls.take k) ⟨r, [], [] ++ [some nv]⟩ := by
      rw [processLines, processLine_payload parse fs _ P _ hparse hnoch]
    rw [s1, s2, processLines_tame parse _ (ls.take k) _ htake]
    simp
  have e1 : feedChunk parse ⟨[], [], []⟩
      (eventMark ++ nl :: (dataMark ++ P ++ nl :: t0)) =
      processLines parse
        (splitNl (eventMark ++ nl :: (dataMark ++ P ++ nl :: t0))).dropLast
        (splitNl (eventMark ++ nl :: (dataMark ++ P ++ nl :: t0))).dropLast
        ⟨lastD (splitNl (eventMark ++ nl :: (dataMark ++ P ++ nl :: t0))) [], [], []⟩ := rfl
  have e2 : runStream parse ((eventMark ++ nl :: (dataMark ++ P ++ nl :: t0)) :: rest) =
      runChunks parse rest ⟨r, fragsJoin parse (ls.take k), [some nv]⟩ := by
    rw [runStream, runChunks, e1, hsplit, List.dropLast_concat, lastD_concat, hchain]
  rw [e2, runChunks_tame parse rest (ls.drop k) _ hnr hdrop hr]
  simp [List.append_assoc, ← fragsJoin_append, List.take_append_drop]

/-- Witness for the amended C1: the same stream delivered with both leading
lines in the first chunk yields exactly one displayNodeAssignment call with
the payload's node_name, and no content. -/
theorem sendMessage_node_assigned_same_chunk_witness :
    runStream c1parse
      ((eventMark ++ nl :: (dataMark ++ c1payload ++ nl :: [nl])) ::
        ["data: [DONE]\n".toList]) =
      .ok ⟨[], [], [some (Json.str "Node 1")]⟩ := by
  have h := sendMessage_node_assigned_same_chunk c1parse c1payload [nl]
    ["data: [DONE]\n".toList] [[], "data: [DONE]".toList]
    [("node_id", Json.num 1), ("node_name", Json.str "Node 1")]
    (Json.str "Node 1")
    (by decide) rfl rfl rfl (by decide) (by decide)
  rw [h]
  rfl

/-! ## Claim C4 -/

/-- One list is extended by another when the latter appends a tail to it. -/
def growsTo {α : Type} (a b : List α) : Prop := ∃ t, b = a ++ t

/-- The rendered container after folding the successive polls of a job,
starting from the container cleared at upload time. -/
def pollRender (stringify : Json → List Char) (snaps : List (List JobResult)) :
    List (List Char) :=
  snaps.foldl (fun c rs => renderJobResults stringify rs c) []

theorem renderStep (f : Json → List Char) (rs rs' : List JobResult)
    (h : growsTo rs rs') :
    renderJobResults f rs' (rs.map (renderEntry f)) = rs'.map (renderEntry f) := by
  obtain ⟨t, rfl⟩ := h
  simp [renderJobResults, List.length_map, List.drop_left, List.map_append]

theorem renderFold_from (f : Json → List Char) :
    ∀ (ss : List (List JobResult)) (r : List JobResult),
      List.Chain' growsTo (r :: ss) → ∀ k (hk : k < ss.length),
      (ss.take (k+1)).foldl (fun c rs => renderJobResults f rs c)
          (r.map (renderEntry f)) =
        (ss.get ⟨k, hk⟩).map (renderEntry f) := by
  intro ss
  induction ss with
  | nil => intro r _ k hk; simp at hk
  | cons s ss ih =>
    intro r hch k hk
    have hgrow : growsTo r s := (List.chain'_cons.mp hch).1
    have hch' : List.Chain' growsTo (s :: ss) := (List.chain'_cons.mp hch).2
    cases k with
    | zero =>
      simp [List.foldl, renderStep f r s hgrow]
    | succ k =>
      have hk' : k < ss.length := by simpa using hk
      have ht : (s :: ss).take (k+2) = s :: ss.take (k+1) := rfl
      rw [ht, List.foldl_cons, renderStep f r s hgrow]
      simpa using ih s hch' k hk'

/-- Claim C4: over any append-only sequence of job-status snapshots, after
each poll the container holds exactly one rendered entry per results
element, in results order; and each renderJobResults call only appends,
never modifying or removing previously rendered entries. -/
theorem renderJobResults_append_only (stringify : Json → List Char)
    (snaps : List (List JobResult)) (hchain : List.Chain' growsTo snaps)
    (k : Nat) (hk : k < snaps.length) :
    pollRender stringify (snaps.take (k+1)) =
      (snaps.get ⟨k, hk⟩).map (renderEntry stringify) ∧
    ∀ (c : List (List Char)) (rs : List JobResult),
      growsTo c (renderJobResults stringify rs c) := by
  refine ⟨?_, fun c rs => ⟨_, rfl⟩⟩
  cases snaps with
  | nil => simp at hk
  | cons s ss =>
    have h0 : renderJobResults stringify s [] = s.map (renderEntry stringify) := by
      simp [renderJobResults]
    cases k with
    | zero => simp [pollRender, List.foldl, h0]
    | succ k =>
      have hk' : k < ss.length := by simpa using hk
      have ht : (s :: ss).take (k+2) = s :: ss.take (k+1) := rfl
      rw [pollRender, ht, List.foldl_cons, h0]
      simpa using renderFold_from stringify ss s hchain k hk'

/-- A constant stand-in for the JSON.stringify builtin. -/
def constStringify : Json → List Char := fun _ => "J".toList

/-- A first poll snapshot with one result. -/
def c4r1 : JobResult := ⟨Json.num 1, Json.str "a"⟩

/-- A second result appended by a later poll. -/
def c4r2 : JobResult := ⟨Json.num 2, Json.str "b"⟩

/-- Two successive append-only snapshots. -/
def c4snaps : List (List JobResult) := [[c4r1], [c4r1, c4r2]]

/-- Witness for C4 on two concrete append-only polls. -/
theorem renderJobResults_append_only_witness :
    pollRender constStringify (c4snaps.take (1+1)) =
      (c4snaps.get ⟨1, by decide⟩).map (renderEntry constStringify) ∧
    ∀ (c : List (List Char)) (rs : List JobResult),
      growsTo c (renderJobResults constStringify rs c) :=
  renderJobResults_append_only constStringify c4snaps
    (List.chain'_pair.mpr ⟨[c4r2], rfl⟩) 1 (by decide)

/-! ## Claim C5 -/

theorem runPolls_inactive (stringify : Json → List Char)
    (os : List FetchOutcome) (st : PollState) (h : st.intervalMs = none) :
    runPolls stringify os st = (st, 0) := by
  cases os with
  | nil => rfl
  | cons o os => simp [runPolls, h]

theorem updateJobStatus_terminal (stringify : Json → List Char)
    (o : FetchOutcome) (st : PollState) (h : isTerminalOutcome o = true) :
    (updateJobStatus stringify o st).intervalMs = none := by
  cases o with
  | err => rfl
  | ok s =>
    have hs : s.status = "completed" ∨ s.status = "failed" := by
      simpa [isTerminalOutcome] using h
    simp [updateJobStatus, if_pos hs]

theorem updateJobStatus_nonterminal (stringify : Json → List Char)
    (o : FetchOutcome) (st : PollState) (h : isTerminalOutcome o = false) :
    (updateJobStatus stringify o st).intervalMs = st.intervalMs := by
  cases o with
  | err => simp [isTerminalOutcome] at h
  | ok s =>
    have hs : ¬(s.status = "completed" ∨ s.status = "failed") := by
      simpa [isTerminalOutcome] using h
    simp [updateJobStatus, if_neg hs]

/-- Claim C5: job polling stops exactly at terminal states.  A terminal
snapshot (completed or failed) or a fetch failure clears the interval; a
pending or running snapshot leaves it untouched; startJobMonitoring arms a
2000 ms interval; and along any outcome sequence the number of status
fetches is cut exactly after the first terminal outcome (all outcomes are
consumed when none is terminal). -/
theorem jobPolling_stops_at_terminal (stringify : Json → List Char) :
    (∀ (o : FetchOutcome) (st : PollState), isTerminalOutcome o = true →
      (updateJobStatus stringify o st).intervalMs = none) ∧
    (∀ (s : JobStatus) (st : PollState),
      s.status = "pending" ∨ s.status = "running" →
      (updateJobStatus stringify (.ok s) st).intervalMs = st.intervalMs) ∧
    (∀ st : PollState, (startJobMonitoring st).intervalMs = some 2000) ∧
    (∀ (os : List FetchOutcome) (st : PollState), st.intervalMs.isSome = true →
      (runPolls stringify os st).2 =
        min os.length (os.findIdx isTerminalOutcome + 1)) := by
  refine ⟨updateJobStatus_terminal stringify, ?_, fun st => rfl, ?_⟩
  · intro s st hs
    refine updateJobStatus_nonterminal stringify (.ok s) st ?_
    rcases hs with h | h <;> simp [isTerminalOutcome, h]
  · intro os
    induction os with
    | nil => intro st _; simp [runPolls]
    | cons o os ih =>
      intro st hst
      rw [runPolls, if_pos hst]
      cases ht : isTerminalOutcome o with
      | true =>
        show (runPolls stringify os (updateJobStatus stringify o st)).2 + 1 = _
        rw [runPolls_inactive stringify os _ (updateJobStatus_terminal stringify o st ht)]
        simp [List.findIdx_cons, ht]
      | false =>
        have hpres : (updateJobStatus stringify o st).intervalMs.isSome = true := by
          rw [updateJobStatus_nonterminal stringify o st ht]
          exact hst
        show (runPolls stringify os (updateJobStatus stringify o st)).2 + 1 = _
        rw [ih _ hpres]
        simp [List.findIdx_cons, ht, Nat.succ_min_succ]

/-- A running snapshot used by the C5 witness. -/
def c5running : JobStatus := ⟨"running", 3, 1, []⟩

/-- Witness for C5: a failure outcome clears the interval, a running
snapshot keeps it, and along run-run-fail-run exactly three fetches occur. -/
theorem jobPolling_stops_at_terminal_witness :
    (updateJobStatus constStringify FetchOutcome.err ⟨some 2000, []⟩).intervalMs = none ∧
    (updateJobStatus constStringify (.ok c5running) ⟨some 2000, []⟩).intervalMs = some 2000 ∧
    (runPolls constStringify
      [.ok c5running, .ok c5running, .err, .ok c5running] ⟨some 2000, []⟩).2 = 3 := by
  have h := jobPolling_stops_at_terminal constStringify
  refine ⟨h.1 FetchOutcome.err ⟨some 2000, []⟩ rfl,
    h.2.1 c5running ⟨some 2000, []⟩ (Or.inr rfl), ?_⟩
  rw [h.2.2.2 [.ok c5running, .ok c5running, .err, .ok c5running] ⟨some 2000, []⟩ rfl]
  rfl

/-! ## Claim C6 -/

/-- Claim C6: every request the frontend issues targets a path of the
public API table under /api/v1 — status/all, alerts and models as GETs,
dataset/status/{job_id} as a GET, chat/completions POSTed with a JSON body
of fields messages, model, stream, and dataset/upload POSTed as multipart
form data holding file plus data_count exactly when the input is non-empty;
no other path is ever requested (the stray EventSource GET also targets the
chat/completions path). -/
theorem frontend_requests_within_api_table (jobId dataCountValue : String) :
    (∀ r ∈ frontendRequests jobId dataCountValue, AllowedPath r.path) ∧
    chatCompletionsReq.method = Method.post ∧
    chatCompletionsReq.body = BodyKind.jsonFields ["messages", "model", "stream"] ∧
    (uploadDatasetReq dataCountValue).method = Method.post ∧
    (uploadDatasetReq dataCountValue).body =
      BodyKind.multipartFields (handleFormSubmitFields dataCountValue) ∧
    "file" ∈ handleFormSubmitFields dataCountValue ∧
    ("data_count" ∈ handleFormSubmitFields dataCountValue ↔ dataCountValue ≠ "") ∧
    fetchNodeStatusesReq.method = Method.get ∧
    fetchAlertsReq.method = Method.get ∧
    fetchAvailableModelsReq.method = Method.get ∧
    (fetchJobStatusReq jobId).method = Method.get := by
  refine ⟨?_, rfl, rfl, rfl, rfl, ?_, ?_, rfl, rfl, rfl, rfl⟩
  · intro r hr
    simp only [frontendRequests, List.mem_cons, List.not_mem_nil, or_false] at hr
    rcases hr with rfl | rfl | rfl | rfl | rfl | rfl | rfl
    · exact Or.inl rfl
    · exact Or.inr (Or.inl rfl)
    · exact Or.inr (Or.inr (Or.inl rfl))
    · exact Or.inr (Or.inr (Or.inr (Or.inr (Or.inl rfl))))
    · exact Or.inr (Or.inr (Or.inr (Or.inr (Or.inr ⟨jobId, rfl⟩))))
    · exact Or.inr (Or.inr (Or.inr (Or.inl rfl)))
    · exact Or.inr (Or.inr (Or.inr (Or.inl rfl)))
  · simp [handleFormSubmitFields]
  · by_cases hd : dataCountValue = "" <;> simp [handleFormSubmitFields, hd]

/-- Witness for C6 at a concrete job id and data-count value. -/
theorem frontend_requests_within_api_table_witness :
    AllowedPath (fetchJobStatusReq "abc").path ∧
    ("data_count" ∈ handleFormSubmitFields "5" ↔ ("5" : String) ≠ "") := by
  have h := frontend_requests_within_api_table "abc" "5"
  exact ⟨h.1 (fetchJobStatusReq "abc") (by simp [frontendRequests]),
    h.2.2.2.2.2.2.1⟩

/-! ## Claim C7 -/

/-- Counterexample to claim C7 as stated: an alert whose level is the
spec value "critical" is rendered with the yellow warning styling, not the
red critical styling, because updateAlerts compares the level against the
localized string '严重'. -/
theorem updateAlerts_critical_not_red_cex :
    alertContainerClass ⟨"critical", "GPU temperature 92C"⟩ = yellowAlertClass ∧
    alertContainerClass ⟨"critical", "GPU temperature 92C"⟩ ≠ redAlertClass ∧
    updateAlerts [⟨"critical", "m"⟩] =
      [(yellowAlertClass, alertEntryHtml ⟨"critical", "m"⟩)] := by
  refine ⟨rfl, by decide, rfl⟩

/-- Claim C7 (amended): updateAlerts styles an alert entry red if and only
if its level equals the localized string '严重', and yellow otherwise; in
particular both spec levels "warning" and "critical" receive the yellow
warning styling. -/
theorem updateAlerts_red_iff_localized_level (lv msg : String) :
    (alertContainerClass ⟨lv, msg⟩ = redAlertClass ↔ lv = "严重") ∧
    (alertContainerClass ⟨lv, msg⟩ = yellowAlertClass ↔ lv ≠ "严重") ∧
    alertContainerClass ⟨"warning", msg⟩ = yellowAlertClass ∧
    alertContainerClass ⟨"critical", msg⟩ = yellowAlertClass := by
  refine ⟨?_, ?_, rfl, rfl⟩
  · by_cases h : lv = "严重"
    · simp [alertContainerClass, h]
    · simp only [alertContainerClass, if_neg h]
      simp [h]
      decide
  · by_cases h : lv = "严重"
    · simp only [alertContainerClass, if_pos h]
      simp [h]
      decide
    · simp [alertContainerClass, h]

/-! ## Claim C8 -/

theorem guardedFetch_ok (o : HttpOutcome) :
    ∃ j, fetchNodeStatuses o = .ok j ∧ fetchAlerts o = .ok j ∧
      fetchAvailableModels o = .ok j := by
  cases o with
  | netErr => exact ⟨Json.arr [], rfl, rfl, rfl⟩
  | resp ok b =>
    cases ok with
    | false => exact ⟨Json.arr [], rfl, rfl, rfl⟩
    | true =>
      cases b with
      | error e => exact ⟨Json.arr [], rfl, rfl, rfl⟩
      | ok j => exact ⟨j, rfl, rfl, rfl⟩

/-- Claim C8: the three dashboard fetch helpers never throw to their caller
— every outcome resolves to some JSON value, a non-ok status or rejected
fetch resolves to the empty array, and consequently the Promise.all of the
dashboard tick never rejects. -/
theorem fetch_helpers_never_throw :
    (∀ o : HttpOutcome, ∃ j, fetchNodeStatuses o = .ok j ∧
      fetchAlerts o = .ok j ∧ fetchAvailableModels o = .ok j) ∧
    (∀ o : HttpOutcome, httpFailed o = true →
      fetchNodeStatuses o = .ok (Json.arr []) ∧
      fetchAlerts o = .ok (Json.arr []) ∧
      fetchAvailableModels o = .ok (Json.arr [])) ∧
    (∀ o1 o2 o3 : HttpOutcome, ∃ t, appTickFetch o1 o2 o3 = .ok t) := by
  refine ⟨guardedFetch_ok, ?_, ?_⟩
  · intro o h
    cases o with
    | netErr => exact ⟨rfl, rfl, rfl⟩
    | resp ok b =>
      cases ok with
      | false => exact ⟨rfl, rfl, rfl⟩
      | true => simp [httpFailed] at h
  · intro o1 o2 o3
    obtain ⟨a, ha, _, _⟩ := guardedFetch_ok o1
    obtain ⟨b, _, hb, _⟩ := guardedFetch_ok o2
    obtain ⟨c, _, _, hc⟩ := guardedFetch_ok o3
    exact ⟨(a, b, c), by simp [appTickFetch, ha, hb, hc]⟩

/-- Witness for C8: a 500 response and a network failure both resolve to
the empty array, and a tick over mixed outcomes resolves. -/
theorem fetch_helpers_never_throw_witness :
    httpFailed (HttpOutcome.resp false (.ok (Json.num 1))) = true ∧
    fetchNodeStatuses (HttpOutcome.resp false (.ok (Json.num 1))) = .ok (Json.arr []) ∧
    fetchAlerts HttpOutcome.netErr = .ok (Json.arr []) ∧
    ∃ t, appTickFetch HttpOutcome.netErr (HttpOutcome.resp true (.ok (Json.arr [])))
      (HttpOutcome.resp false (.error ())) = .ok t := by
  have h := fetch_helpers_never_throw
  exact ⟨rfl, (h.2.1 (HttpOutcome.resp false (.ok (Json.num 1))) rfl).1,
    (h.2.1 HttpOutcome.netErr rfl).2.1, h.2.2 _ _ _⟩

/-! ## Claim C9 -/

theorem isAltHist_append_pair (c1 c2 : List Char) :
    ∀ (h : List Msg), IsAltHist h →
      IsAltHist (h ++ [⟨"user", c1⟩, ⟨"assistant", c2⟩])
  | [], _ => by simp [IsAltHist]
  | [m], hm => absurd hm (by simp [IsAltHist])
  | u :: a :: t, hm => by
    have hm' : u.role = "user" ∧ a.role = "assistant" ∧ IsAltHist t := hm
    exact ⟨hm'.1, hm'.2.1, isAltHist_append_pair c1 c2 t hm'.2.2⟩

/-- Claim C9: every sendMessage invocation with non-empty trimmed input —
on each of its exit paths (rejected fetch, non-ok status, completed or
thrown stream) — leaves the send button re-enabled and grows the history by
exactly a user message followed by an assistant message, preserving strict
role alternation. -/
theorem sendMessage_history_grows_by_pair
    (parse : List Char → Option Json) (hist : List Msg) (disabled0 : Bool)
    (input : List Char) (outcome : NetOutcome)
    (hne : (jsTrim input).isEmpty = false) :
    (sendMessage parse hist disabled0 input outcome).sendDisabled = false ∧
    (∃ a, (sendMessage parse hist disabled0 input outcome).history =
      hist ++ [⟨"user", jsTrim input⟩, ⟨"assistant", a⟩]) ∧
    (IsAltHist hist →
      IsAltHist (sendMessage parse hist disabled0 input outcome).history) := by
  have hshape : ∃ a reqs ess nn,
      sendMessage parse hist disabled0 input outcome =
        ⟨(hist ++ [⟨"user", jsTrim input⟩]) ++ [⟨"assistant", a⟩], false,
          reqs, ess, nn⟩ := by
    cases outcome with
    | fetchRejected =>
      exact ⟨[], [chatCompletionsReq], [], [], by simp [sendMessage, hne]⟩
    | httpStatusNotOk =>
      exact ⟨[], [chatCompletionsReq], [], [], by simp [sendMessage, hne]⟩
    | streamBody chunks =>
      cases hrs : runStream parse chunks with
      | ok s =>
        exact ⟨s.content, [chatCompletionsReq, chatEventSourceReq],
          [⟨"/api/v1/chat/completions", false, false⟩], s.nodeCalls,
          by simp [sendMessage, hne, hrs]⟩
      | error s =>
        exact ⟨s.content, [chatCompletionsReq, chatEventSourceReq],
          [⟨"/api/v1/chat/completions", false, false⟩], s.nodeCalls,
          by simp [sendMessage, hne, hrs]⟩
  obtain ⟨a, reqs, ess, nn, e⟩ := hshape
  rw [e]
  refine ⟨rfl, ⟨a, by simp⟩, fun halt => ?_⟩
  rw [List.append_assoc]
  exact isAltHist_append_pair (jsTrim input) a hist halt

/-- Witness for C9 on a concrete call with whitespace-padded input. -/
theorem sendMessage_history_grows_by_pair_witness :
    (sendMessage c2parse [] true (" hi ".toList) .fetchRejected).sendDisabled = false ∧
    (sendMessage c2parse [] true (" hi ".toList) .fetchRejected).history =
      [⟨"user", "hi".toList⟩, ⟨"assistant", []⟩] ∧
    IsAltHist (sendMessage c2parse [] true (" hi ".toList) .fetchRejected).history := by
  have h := sendMessage_history_grows_by_pair c2parse [] true
    (" hi ".toList) .fetchRejected (by decide)
  exact ⟨h.1, rfl, h.2.2 trivial⟩

/-! ## Claim C10 -/

/-- Claim C10: every sendMessage invocation that reaches the streaming
phase opens, besides the POST, one extra EventSource connection — an HTTP
GET to /api/v1/chat/completions — whose events are never consumed (no
listener is attached) and which is never closed. -/
theorem sendMessage_opens_extra_eventsource
    (parse : List Char → Option Json) (hist : List Msg) (disabled0 : Bool)
    (input : List Char) (chunks : List (List Char))
    (hne : (jsTrim input).isEmpty = false) :
    (sendMessage parse hist disabled0 input (.streamBody chunks)).eventSources =
      [⟨"/api/v1/chat/completions", false, false⟩] ∧
    (sendMessage parse hist disabled0 input (.streamBody chunks)).requests =
      [chatCompletionsReq, chatEventSourceReq] ∧
    chatEventSourceReq.method = Method.get ∧
    chatEventSourceReq.path = "/api/v1/chat/completions" := by
  cases hrs : runStream parse chunks with
  | ok s => exact ⟨by simp [sendMessage, hne, hrs], by simp [sendMessage, hne, hrs], rfl, rfl⟩
  | error s => exact ⟨by simp [sendMessage, hne, hrs], by simp [sendMessage, hne, hrs], rfl, rfl⟩

/-- Witness for C10 on a concrete streaming call. -/
theorem sendMessage_opens_extra_eventsource_witness :
    (sendMessage c2parse [] true (" hi ".toList) (.streamBody [])).eventSources =
      [⟨"/api/v1/chat/completions", false, false⟩] ∧
    (sendMessage c2parse [] true (" hi ".toList) (.streamBody [])).requests =
      [chatCompletionsReq, chatEventSourceReq] := by
  have h := sendMessage_opens_extra_eventsource c2parse [] true
    (" hi ".toList) [] (by decide)
  exact ⟨h.1, h.2.1⟩

end InferOps
